import Mathlib

/-!
Shallow embedding of the xtk term-rewriting core (module `xtk/rewriter.py`):
the expression data model, the pattern matcher, the skeleton instantiator,
the partial evaluator and the rewrite driver, together with theorems that
check the natural-language specification of the module.

Modelling conventions
* Python numbers (int and float) are modelled as exact rationals.  All
  numeric inputs appearing in the specification are small integers, for
  which rational arithmetic coincides with Python arithmetic.
* Python lists are `List`, strings are `String`.
* A value bound in an environment may be an invocable Operation; such
  callables are modelled by the small catalogue `OpCode`, applied through
  `applyOp`, which returns `none` when the underlying callable raises.
* A Python function that can raise an uncaught exception is embedded with
  an `Option` (or `Except`) result; `none` (or `.error`) is the raise.
-/

namespace Xtk

/-- Invocable Operations that an environment may bind a name to.  They model
user-supplied Python callables: exact numeric addition, true division and a
callable that always raises. -/
inductive OpCode where
  | addOp : OpCode
  | divOp : OpCode
  | raiseOp : OpCode
deriving DecidableEq, Repr

/-- The expression tree of the rewriter: a numeric constant, a symbol
(string), a compound (Python list), or an invocable Operation value. -/
inductive Exp where
  | num : ℚ → Exp
  | str : String → Exp
  | lst : List Exp → Exp
  | op : OpCode → Exp

mutual

/-- Structural equality of expressions, the embedding of Python `==` on
expression trees. -/
def Exp.beq : Exp → Exp → Bool
  | .num a, .num b => a == b
  | .str a, .str b => a == b
  | .op a, .op b => a == b
  | .lst a, .lst b => Exp.beqList a b
  | _, _ => false

/-- Elementwise structural equality of expression lists. -/
def Exp.beqList : List Exp → List Exp → Bool
  | [], [] => true
  | x :: xs, y :: ys => Exp.beq x y && Exp.beqList xs ys
  | _, _ => false

end

instance : BEq Exp := ⟨Exp.beq⟩

mutual

theorem Exp.beq_iff : ∀ a b : Exp, Exp.beq a b = true ↔ a = b
  | .num a, .num b => by simp [Exp.beq]
  | .str a, .str b => by simp [Exp.beq]
  | .op a, .op b => by simp [Exp.beq]
  | .lst a, .lst b => by simp [Exp.beq, Exp.beqList_iff a b]
  | .num _, .str _ | .num _, .lst _ | .num _, .op _
  | .str _, .num _ | .str _, .lst _ | .str _, .op _
  | .lst _, .num _ | .lst _, .str _ | .lst _, .op _
  | .op _, .num _ | .op _, .str _ | .op _, .lst _ => by simp [Exp.beq]

theorem Exp.beqList_iff : ∀ a b : List Exp, Exp.beqList a b = true ↔ a = b
  | [], [] => by simp [Exp.beqList]
  | x :: xs, y :: ys => by
    simp [Exp.beqList, Exp.beq_iff x y, Exp.beqList_iff xs ys]
  | [], _ :: _ | _ :: _, [] => by simp [Exp.beqList]

end

instance : LawfulBEq Exp where
  eq_of_beq h := (Exp.beq_iff _ _).mp h
  rfl := (Exp.beq_iff _ _).mpr rfl

instance : DecidableEq Exp :=
  fun a b => decidable_of_iff (Exp.beq a b = true) (Exp.beq_iff a b)

/-- Application of an invocable Operation to already-evaluated operand
values; `none` models the callable raising (wrong arity, unsupported
operand type, division by zero). -/
def applyOp : OpCode → List Exp → Option Exp
  | .addOp, [.num a, .num b] => some (.num (a + b))
  | .divOp, [.num a, .num b] => if b = 0 then none else some (.num (a / b))
  | _, _ => none

/-- `constant(exp)`: the expression is a numeric constant. -/
def constant : Exp → Bool
  | .num _ => true
  | _ => false

/-- `variable(exp)`: the expression is a string. -/
def variableE : Exp → Bool
  | .str _ => true
  | _ => false

/-- `compound(exp)`: the expression is a list. -/
def compound : Exp → Bool
  | .lst _ => true
  | _ => false

/-- `callable(exp)` as used by the matcher and evaluator. -/
def callableE : Exp → Bool
  | .op _ => true
  | _ => false

/-- `atom(exp)`: a constant or a variable. -/
def atom (e : Exp) : Bool := constant e || variableE e

/-- `null(s)`: the expression equals the empty list. -/
def nullE : Exp → Bool
  | .lst [] => true
  | _ => false

/-- A bindings dictionary: an association list of (name, value) entries, as
built by `extend_dictionary`. -/
abbrev Bindings := List (Exp × Exp)

/-- The value of type `DictType` flowing through the matcher: a bindings
dictionary or the failure sentinel string. -/
inductive MRes where
  | ok : Bindings → MRes
  | failed : MRes
deriving DecidableEq

/-- `arbitrary_constant(pat)`: compound whose first element is `?c`.  The
matcher only calls this after its `null(pat)` branch, so the empty-compound
case (where Python `car` would raise) is unreachable there. -/
def arbitrary_constant : Exp → Bool
  | .lst (h :: _) => h == .str "?c"
  | _ => false

/-- `arbitrary_variable(pat)`: compound whose first element is `?v`. -/
def arbitrary_variable : Exp → Bool
  | .lst (h :: _) => h == .str "?v"
  | _ => false

/-- `arbitrary_expression(pat)`: compound whose first element is `?`. -/
def arbitrary_expression : Exp → Bool
  | .lst (h :: _) => h == .str "?"
  | _ => false

/-- `variable_name(pat) = car(cdr(pat))`; `none` models the ValueError or
TypeError raised when the compound has no second element or is not a list. -/
def variable_name : Exp → Option Exp
  | .lst (_ :: x :: _) => some x
  | _ => none

/-- `eval_exp(s) = car(cdr(s))`, same raising behaviour as
`variable_name`. -/
def eval_exp : Exp → Option Exp
  | .lst (_ :: x :: _) => some x
  | _ => none

/-- `extend_dictionary(pat, dat, dict)`: insert `variable_name(pat) -> dat`,
keep the dictionary when the name is already bound to an equal value, and
return the failure sentinel on a conflicting existing binding.  The outer
`Option` models the exception raised by `variable_name` on a malformed
marker. -/
def extend_dictionary (pat dat : Exp) (d : MRes) : Option MRes :=
  match d with
  | .failed => some .failed
  | .ok entries =>
    match variable_name pat with
    | none => none
    | some name =>
      match entries.find? (fun en => en.1 == name) with
      | some en => if en.2 == dat then some (.ok entries) else some .failed
      | none => some (.ok (entries ++ [(name, dat)]))

/-- `lookup(var, dict)`: the first bound value for `var`, or `var` itself
when no entry matches. -/
def lookup (v : Exp) (d : Bindings) : Exp :=
  match d.find? (fun en => en.1 == v) with
  | some en => en.2
  | none => v

/-- `match(pat, exp, dict)` of the source, renamed because `match` is
reserved.  Returns `some` of the updated dictionary or the failure
sentinel; `none` models an uncaught exception (a marker compound without a
name, or `car` applied to a callable pattern). -/
def xmatch (pat exp : Exp) (d : MRes) : Option MRes :=
  if d = .failed then some .failed
  else if nullE pat then (if nullE exp then some d else some .failed)
  else if atom pat then
    (if atom exp && pat == exp then some d else some .failed)
  else if arbitrary_constant pat then
    (if constant exp then extend_dictionary pat exp d else some .failed)
  else if arbitrary_variable pat then
    (if variableE exp then extend_dictionary pat exp d else some .failed)
  else if arbitrary_expression pat then
    (if !callableE exp then extend_dictionary pat exp d else some .failed)
  else if atom exp || callableE exp then some .failed
  else
    match pat, exp with
    | .lst (_ :: _), .lst [] => some .failed
    | .lst (p :: ps), .lst (e :: es) => do
      let sub ← xmatch p e d
      xmatch (.lst ps) (.lst es) sub
    | _, _ => none
termination_by sizeOf pat
decreasing_by all_goals (simp_wf; try omega)

mutual

/-- `evaluate(form, dict)`: the partial evaluator.  A compound evaluates
its operands (not its head), looks up the original head and applies it when
it is callable; an application that raises is caught and the residual
compound is returned.  A string is looked up, a constant and anything else
is returned unchanged. -/
def evaluate (form : Exp) (d : Bindings) : Exp :=
  match form with
  | .lst [] => .lst []
  | .lst (op :: args) =>
    let sargs := evalList args d
    let sform := Exp.lst (op :: sargs)
    match lookup op d with
    | .op o =>
      match applyOp o sargs with
      | some r => r
      | none => sform
    | _ => sform
  | .num q => .num q
  | .str s => lookup (.str s) d
  | .op o => .op o

/-- The operand list comprehension `[evaluate(arg, dict) for arg in args]`. -/
def evalList (l : List Exp) (d : Bindings) : List Exp :=
  match l with
  | [] => []
  | h :: t => evaluate h d :: evalList t d

end

/-- The inner `loop` of `instantiate`.  `none` models an uncaught
exception: `eval_exp` raising on a substitution marker without an argument,
or `cons` raising when the instantiated tail is not a sequence. -/
def instLoop (d : Bindings) (s : Exp) : Option Exp :=
  match s with
  | .lst [] => some (.lst [])
  | .num q => some (.num q)
  | .str t => some (.str t)
  | .op _ => none
  | .lst (h :: t) =>
    if h == .str ":" then
      match t with
      | x :: _ => some (evaluate x d)
      | [] => none
    else do
      let a ← instLoop d h
      let r ← instLoop d (.lst t)
      match r with
      | .lst ys => some (.lst (a :: ys))
      | _ => none
termination_by sizeOf s
decreasing_by all_goals (simp_wf; try omega)

/-- `instantiate(skeleton, dict)`. -/
def instantiate (skel : Exp) (d : Bindings) : Option Exp := instLoop d skel

/-- Extract the rational values of a list of expressions when all of them
are numeric constants, the guard
`all(isinstance(arg, (int, float)) for arg in args)`. -/
def allNums : List Exp → Option (List ℚ)
  | [] => some []
  | .num q :: es =>
    match allNums es with
    | some qs => some (q :: qs)
    | none => none
  | _ :: _ => none

/-- Outcome of the arithmetic dispatch inside `try_constant_fold`. -/
inductive FoldOut where
  | value : ℚ → FoldOut
  | notApplicable : FoldOut
  | raised : FoldOut
deriving DecidableEq

/-- The operator dispatch of `try_constant_fold`: the fixed catalogue of
built-in operators at their expected arities.  Division by zero is guarded
and yields `notApplicable` (the code returns the expression itself inside
the `try` block).  Exponentiation models Python `**` on exact rationals: an
integer exponent is computed exactly, except that `0` raised to a negative
power raises ZeroDivisionError (`raised`); a non-integer exponent leaves
the rational domain (Python would produce an inexact float) and is treated
as the raising path, which the caller maps back to the unchanged
expression just like every other failure. -/
def foldArith : Exp → List ℚ → FoldOut
  | .str "+", [a, b] => .value (a + b)
  | .str "-", [a, b] => .value (a - b)
  | .str "-", [a] => .value (-a)
  | .str "*", [a, b] => .value (a * b)
  | .str "/", [a, b] => if b ≠ 0 then .value (a / b) else .notApplicable
  | .str "^", [a, b] =>
    if b.den = 1 then
      if a = 0 ∧ b.num < 0 then .raised else .value (a ^ b.num)
    else .raised
  | _, _ => .notApplicable

/-- `try_constant_fold(exp)`: evaluate arithmetic on all-constant operand
lists; on any failure (non-compound, non-constant operand, unknown
operator, wrong arity, division by zero, or a raising evaluation) the
expression is returned unchanged. -/
def try_constant_fold (e : Exp) : Exp :=
  match e with
  | .lst (op :: args) =>
    match allNums args with
    | none => e
    | some qs =>
      match foldArith op qs with
      | .value q => .num q
      | .notApplicable => e
      | .raised => e
  | _ => e

/-- A rule is a (pattern, skeleton) pair; a rule set is an ordered list. -/
abbrev Rules := List (Exp × Exp)

/-- Errors with which a run of the rewrite driver can abort: exhaustion of
the recursion depth (Python RecursionError) or an uncaught exception from
`match`/`instantiate` on malformed rules. -/
inductive RunErr where
  | stackOverflow : RunErr
  | typeError : RunErr
deriving DecidableEq

mutual

/-- One entry into `simplify_exp` of `rewriter(the_rules, ...)`.  `fuel`
bounds the recursion depth of the embedded run; every recursive call
consumes fuel, so `.error .stackOverflow` for every fuel means the Python
recursion is unbounded on that input. -/
def simplify_exp (rules : Rules) (folding : Bool) (fuel : Nat) (e : Exp) :
    Except RunErr Exp :=
  if fuel = 0 then .error .stackOverflow
  else simplify_loop rules folding (fuel - 1) 1000 e
termination_by fuel
decreasing_by all_goals (simp_wf; omega)

/-- The `while iterations < max_iterations` loop of `simplify_exp`, with
`iters` the remaining iteration budget (`max_iterations = 1000`).  An
iteration tries the rules, then constant folding, then simplification of
the parts, and continues only when one of them changed the expression;
when nothing changed the current expression is returned, and so it is when
the iteration budget is exhausted. -/
def simplify_loop (rules : Rules) (folding : Bool) (fuel iters : Nat)
    (e : Exp) : Except RunErr Exp :=
  if fuel = 0 then .error .stackOverflow
  else if iters = 0 then .ok e
  else do
    let r ← try_rules rules rules folding (fuel - 1) e
    if r ≠ e then simplify_loop rules folding (fuel - 1) (iters - 1) r
    else
      let r2 := if folding then try_constant_fold e else e
      if r2 ≠ e then simplify_loop rules folding (fuel - 1) (iters - 1) r2
      else
        match e with
        | .lst elems => do
          let ys ← simplify_parts rules folding (fuel - 1) elems
          if Exp.lst ys ≠ e then
            simplify_loop rules folding (fuel - 1) (iters - 1) (.lst ys)
          else .ok e
        | _ => .ok e
termination_by fuel
decreasing_by all_goals (simp_wf; omega)

/-- `simplify_parts(exp)`: simplify every element (head included) of a
compound in order. -/
def simplify_parts (rules : Rules) (folding : Bool) (fuel : Nat)
    (l : List Exp) : Except RunErr (List Exp) :=
  if fuel = 0 then .error .stackOverflow
  else
    match l with
    | [] => .ok []
    | h :: t => do
      let a ← simplify_exp rules folding (fuel - 1) h
      let r ← simplify_parts rules folding (fuel - 1) t
      .ok (a :: r)
termination_by fuel
decreasing_by all_goals (simp_wf; omega)

/-- The `scan` loop of `try_rules`: first-match-wins over `scanRules`; on a
match the instantiated skeleton is recursively simplified before being
returned. -/
def try_rules (scanRules rules : Rules) (folding : Bool) (fuel : Nat)
    (e : Exp) : Except RunErr Exp :=
  if fuel = 0 then .error .stackOverflow
  else
    match scanRules with
    | [] => .ok e
    | (pat, skel) :: rest =>
      match xmatch pat e (.ok []) with
      | none => .error .typeError
      | some .failed => try_rules rest rules folding (fuel - 1) e
      | some (.ok d) =>
        match instantiate skel d with
        | none => .error .typeError
        | some inst => simplify_exp rules folding (fuel - 1) inst
termination_by fuel
decreasing_by all_goals (simp_wf; omega)

end

/-- `rewriter(the_rules, constant_folding)` applied to an expression: the
returned wrapper calls `simplify_exp` on it. -/
def rewriter (rules : Rules) (folding : Bool) (fuel : Nat) (e : Exp) :
    Except RunErr Exp :=
  simplify_exp rules folding fuel e

/-- The kind check a marker symbol performs on the candidate expression:
`?c` accepts constants, `?v` accepts variables, `?` accepts everything
that is not callable. -/
def markerOK : String → Exp → Bool
  | "?c", e => constant e
  | "?v", e => variableE e
  | "?", e => !callableE e
  | _, _ => false

mutual

/-- Well-formedness of a skeleton under which `instantiate` cannot raise:
the substitution marker `:` occurs only as the head of a compound with at
least one further element, never as a bare element in a non-head position
of a compound, and no invocable Operation value occurs in the tree. -/
def goodSkel : Exp → Bool
  | .num _ => true
  | .str _ => true
  | .op _ => false
  | .lst [] => true
  | .lst (h :: t) =>
    if h == .str ":" then !t.isEmpty
    else goodSkel h && goodSkelTail t

/-- Well-formedness of the tail of a compound skeleton: no element is the
bare substitution marker (such an element would turn its suffix into a
substitution form whose result is spliced by `cons`, raising when it is
not a sequence), and every element is itself a well-formed skeleton. -/
def goodSkelTail : List Exp → Bool
  | [] => true
  | x :: xs => !(x == .str ":") && goodSkel x && goodSkelTail xs

end

/-- The head of a compound is one of the three reserved marker symbols. -/
def isMarkerS (e : Exp) : Bool :=
  e == .str "?" || e == .str "?c" || e == .str "?v"

mutual

/-- Conversion of a pattern to a skeleton with the code's head-based
marker reading: every compound headed by a marker symbol, of any length,
has its head rewritten to the substitution marker and keeps its remaining
elements; all other compounds are converted elementwise. -/
def toSkel : Exp → Exp
  | .lst (h :: t) =>
    if isMarkerS h then .lst (.str ":" :: t)
    else .lst (toSkel h :: toSkelL t)
  | e => e

/-- Elementwise conversion of a list of pattern elements. -/
def toSkelL : List Exp → List Exp
  | [] => []
  | x :: xs => toSkel x :: toSkelL xs

end

mutual

/-- Modelled from the spec: the claim's skeleton conversion, which
rewrites exactly the two-element marker Compounds `any(name)`,
`const(name)` and `var(name)` into the two-element substitution Compound
`sub(name)`, and copies every other shape structurally. -/
def specToSkel : Exp → Exp
  | .lst [h, n] =>
    if isMarkerS h then .lst [.str ":", n]
    else .lst [specToSkel h, specToSkel n]
  | .lst l => .lst (specToSkelL l)
  | e => e

/-- Modelled from the spec: elementwise conversion of the elements of a
non-marker Compound. -/
def specToSkelL : List Exp → List Exp
  | [] => []
  | x :: xs => specToSkel x :: specToSkelL xs

end

/-- The tail of a marker compound starts with a Symbol to use as the
bound name. -/
def nameHead : List Exp → Bool
  | .str _ :: _ => true
  | _ => false

mutual

/-- Well-formedness of a pattern for the round-trip: marker compounds
(recognized by their head) carry a Symbol as the bound name; the marker
symbols and the substitution marker never occur as bare atoms in non-head
positions of a compound (where the matcher or the instantiator would
treat the remaining suffix as a marker form); the bare substitution
marker never heads a compound; and no invocable value occurs. -/
def goodPat : Exp → Bool
  | .num _ => true
  | .str _ => true
  | .op _ => false
  | .lst [] => true
  | .lst (h :: t) =>
    if isMarkerS h then nameHead t
    else if h == .str ":" then false
    else goodPat h && goodTailP t

/-- Well-formedness of the elements of a compound pattern after its head. -/
def goodTailP : List Exp → Bool
  | [] => true
  | x :: xs =>
    !isMarkerS x && !(x == .str ":") && goodPat x && goodTailP xs

end

/-- Keys bound in a dictionary are pairwise distinct; `extend_dictionary`
preserves this and the empty dictionary satisfies it. -/
def UniqueKeys (d : Bindings) : Prop := (d.map Prod.fst).Nodup

/-! Stepping lemmas for the driver, used to evaluate runs one transition at
a time. -/

@[simp] theorem except_bind_ok {ε α β : Type} (a : α) (f : α → Except ε β) :
    (Except.ok a : Except ε α) >>= f = f a := rfl

@[simp] theorem except_bind_error {ε α β : Type} (er : ε)
    (f : α → Except ε β) :
    (Except.error er : Except ε α) >>= f = .error er := rfl

theorem simplify_exp_step (rules : Rules) (folding : Bool) (fuel : Nat)
    (e : Exp) (h : fuel ≠ 0) :
    simplify_exp rules folding fuel e =
      simplify_loop rules folding (fuel - 1) 1000 e := by
  rw [simplify_exp]; simp [h]

theorem try_rules_nil (rules : Rules) (folding : Bool) (fuel : Nat)
    (e : Exp) (h : fuel ≠ 0) :
    try_rules [] rules folding fuel e = .ok e := by
  rw [try_rules]; simp [h]

theorem try_rules_failed (pat skel : Exp) (rest rules : Rules)
    (folding : Bool) (fuel : Nat) (e : Exp) (h : fuel ≠ 0)
    (hm : xmatch pat e (.ok []) = some .failed) :
    try_rules ((pat, skel) :: rest) rules folding fuel e =
      try_rules rest rules folding (fuel - 1) e := by
  rw [try_rules]; simp [h, hm]

theorem try_rules_matched (pat skel : Exp) (rest rules : Rules)
    (folding : Bool) (fuel : Nat) (e inst : Exp) (d : Bindings)
    (h : fuel ≠ 0) (hm : xmatch pat e (.ok []) = some (.ok d))
    (hi : instantiate skel d = some inst) :
    try_rules ((pat, skel) :: rest) rules folding fuel e =
      simplify_exp rules folding (fuel - 1) inst := by
  rw [try_rules]; simp [h, hm, hi]

theorem simplify_loop_rule_step (rules : Rules) (folding : Bool)
    (fuel iters : Nat) (e r : Exp) (hfu : fuel ≠ 0) (hit : iters ≠ 0)
    (ht : try_rules rules rules folding (fuel - 1) e = .ok r) (hne : r ≠ e) :
    simplify_loop rules folding fuel iters e =
      simplify_loop rules folding (fuel - 1) (iters - 1) r := by
  rw [simplify_loop.eq_def, if_neg hfu, if_neg hit, ht]
  simp only [except_bind_ok]
  rw [if_pos hne]

theorem simplify_loop_err (rules : Rules) (folding : Bool)
    (fuel iters : Nat) (e : Exp) (err : RunErr) (hfu : fuel ≠ 0)
    (hit : iters ≠ 0)
    (ht : try_rules rules rules folding (fuel - 1) e = .error err) :
    simplify_loop rules folding fuel iters e = .error err := by
  rw [simplify_loop.eq_def, if_neg hfu, if_neg hit, ht]
  simp only [except_bind_error]

theorem simplify_loop_fold_step (rules : Rules) (folding : Bool)
    (fuel iters : Nat) (e r2 : Exp) (hfu : fuel ≠ 0) (hit : iters ≠ 0)
    (ht : try_rules rules rules folding (fuel - 1) e = .ok e)
    (hf : (if folding then try_constant_fold e else e) = r2)
    (hne : r2 ≠ e) :
    simplify_loop rules folding fuel iters e =
      simplify_loop rules folding (fuel - 1) (iters - 1) r2 := by
  rw [simplify_loop.eq_def, if_neg hfu, if_neg hit, ht]
  simp only [except_bind_ok]
  rw [if_neg (not_not_intro rfl), hf, if_pos hne]

theorem simplify_loop_atom_done (rules : Rules) (folding : Bool)
    (fuel iters : Nat) (e : Exp) (hfu : fuel ≠ 0) (hit : iters ≠ 0)
    (ht : try_rules rules rules folding (fuel - 1) e = .ok e)
    (hf : (if folding then try_constant_fold e else e) = e)
    (hc : compound e = false) :
    simplify_loop rules folding fuel iters e = .ok e := by
  cases e with
  | lst l => simp [compound] at hc
  | num q => rw [simplify_loop.eq_def, if_neg hfu, if_neg hit, ht]; simp [hf]
  | str s => rw [simplify_loop.eq_def, if_neg hfu, if_neg hit, ht]; simp [hf]
  | op o => rw [simplify_loop.eq_def, if_neg hfu, if_neg hit, ht]; simp [hf]

theorem simplify_loop_parts_step (rules : Rules) (folding : Bool)
    (fuel iters : Nat) (elems ys : List Exp) (hfu : fuel ≠ 0)
    (hit : iters ≠ 0)
    (ht : try_rules rules rules folding (fuel - 1) (.lst elems) =
      .ok (.lst elems))
    (hf : (if folding then try_constant_fold (.lst elems) else
      Exp.lst elems) = .lst elems)
    (hp : simplify_parts rules folding (fuel - 1) elems = .ok ys)
    (hne : ys ≠ elems) :
    simplify_loop rules folding fuel iters (.lst elems) =
      simplify_loop rules folding (fuel - 1) (iters - 1) (.lst ys) := by
  rw [simplify_loop.eq_def, if_neg hfu, if_neg hit, ht]
  simp [hf, hp, hne]

theorem simplify_loop_parts_done (rules : Rules) (folding : Bool)
    (fuel iters : Nat) (elems : List Exp) (hfu : fuel ≠ 0) (hit : iters ≠ 0)
    (ht : try_rules rules rules folding (fuel - 1) (.lst elems) =
      .ok (.lst elems))
    (hf : (if folding then try_constant_fold (.lst elems) else
      Exp.lst elems) = .lst elems)
    (hp : simplify_parts rules folding (fuel - 1) elems = .ok elems) :
    simplify_loop rules folding fuel iters (.lst elems) = .ok (.lst elems) := by
  rw [simplify_loop.eq_def, if_neg hfu, if_neg hit, ht]
  simp [hf, hp]

theorem simplify_parts_nil (rules : Rules) (folding : Bool) (fuel : Nat)
    (h : fuel ≠ 0) : simplify_parts rules folding fuel [] = .ok [] := by
  rw [simplify_parts]; simp [h]

theorem simplify_parts_cons (rules : Rules) (folding : Bool) (fuel : Nat)
    (hd : Exp) (t : List Exp) (a : Exp) (r : List Exp) (h : fuel ≠ 0)
    (h1 : simplify_exp rules folding (fuel - 1) hd = .ok a)
    (h2 : simplify_parts rules folding (fuel - 1) t = .ok r) :
    simplify_parts rules folding fuel (hd :: t) = .ok (a :: r) := by
  rw [simplify_parts]; simp [h, h1, h2]

/-! Claim C1. -/

/-- C1, counterexample.  With bindings `x -> 2`, the head `x` of the
compound `[x, 1]` does not resolve to an invocable Operation and evaluates
on its own to `2`, yet `evaluate` returns the residual `[x, 1]` with the
head unevaluated — not the `[2, 1]` the claim requires (evaluated head
followed by evaluated operands). -/
theorem claim_C1_counterexample :
    callableE (lookup (.str "x") [(.str "x", .num 2)]) = false ∧
    evaluate (.str "x") [(.str "x", .num 2)] = .num 2 ∧
    evaluate (.lst [.str "x", .num 1]) [(.str "x", .num 2)] =
      .lst [.str "x", .num 1] ∧
    evaluate (.lst [.str "x", .num 1]) [(.str "x", .num 2)] ≠
      .lst [evaluate (.str "x") [(.str "x", .num 2)],
        evaluate (.num 1) [(.str "x", .num 2)]] := by
  refine ⟨rfl, ?_, ?_, ?_⟩ <;>
    simp [evaluate.eq_def, evalList.eq_def, lookup, List.find?, applyOp,
      callableE]

/-- C1 (amended): for every compound, `evaluate` recursively evaluates
every operand — but not the head, which is kept verbatim — under the same
bindings; it looks up the original head, and when the head does not
resolve to an invocable Operation it returns the reconstructed Compound
consisting of the original head followed by the evaluated operands. -/
theorem claim_C1 (op : Exp) (args : List Exp) (d : Bindings)
    (h : callableE (lookup op d) = false) :
    evaluate (.lst (op :: args)) d = .lst (op :: evalList args d) := by
  cases hl : lookup op d with
  | op o => rw [hl] at h; simp [callableE] at h
  | num q => simp [evaluate.eq_def, hl]
  | str s => simp [evaluate.eq_def, hl]
  | lst l => simp [evaluate.eq_def, hl]

/-- C1, witness for the amended theorem at `[y, 1]` under `y -> 7`. -/
theorem claim_C1_witness :
    evaluate (.lst [.str "y", .num 1]) [(.str "y", .num 7)] =
      .lst (.str "y" :: evalList [.num 1] [(.str "y", .num 7)]) :=
  claim_C1 (.str "y") [.num 1] [(.str "y", .num 7)]
    (by simp [callableE, lookup, List.find?])

/-! Claim C2. -/

/-- C2, counterexample.  The three-element compound `[?, x, junk]` is
recognized as a marker pattern by the code (only the head is inspected)
and successfully matches the atom `5`, binding `x -> 5`; the claim instead
requires every compound that is not exactly length 2 to be matched
structurally element-by-element against a Compound of the same length,
which would fail against the non-Compound `5`. -/
theorem claim_C2_counterexample :
    xmatch (.lst [.str "?", .str "x", .str "junk"]) (.num 5) (.ok []) =
      some (.ok [(.str "x", .num 5)]) ∧
    compound (.num 5) = false := by
  constructor
  · simp [xmatch, nullE, atom, constant, variableE, arbitrary_constant,
      arbitrary_variable, arbitrary_expression, extend_dictionary,
      variable_name, callableE]
  · rfl

/-- C2 (amended): a marker pattern is recognized whenever the pattern
Compound's first element is the reserved marker symbol, regardless of the
compound's length; the marker's kind check is applied to the expression
and on success the bindings are extended through `extend_dictionary`
(which raises when the marker compound has no second element to use as a
name).  Compounds whose head is not a marker symbol are matched
structurally. -/
theorem claim_C2 (m : String) (hm : m = "?" ∨ m = "?c" ∨ m = "?v")
    (t : List Exp) (e : Exp) (d : Bindings) :
    xmatch (.lst (.str m :: t)) e (.ok d) =
      if markerOK m e then
        extend_dictionary (.lst (.str m :: t)) e (.ok d)
      else some .failed := by
  rcases hm with h | h | h <;> subst h <;>
    rw [xmatch.eq_def] <;>
    simp [nullE, atom, constant, variableE, arbitrary_constant,
      arbitrary_variable, arbitrary_expression, markerOK]

/-- C2, witness for the amended theorem: the two-element marker `[?c, x]`
against the constant `3`. -/
theorem claim_C2_witness :
    xmatch (.lst [.str "?c", .str "x"]) (.num 3) (.ok []) =
      some (.ok [(.str "x", .num 3)]) :=
  (claim_C2 "?c" (Or.inr (Or.inl rfl)) [.str "x"] (.num 3) []).trans
    (by simp [markerOK, constant, extend_dictionary, variable_name])

/-! Claim C7. -/

/-- C7: during constant folding, a division whose second operand is the
constant `0` is fold-not-applicable: `try_constant_fold` returns the
expression unchanged (it never raises — it is a total function), exactly
as it does for a wrong arity (unary `/`) or an unknown operator (`%`). -/
theorem claim_C7 :
    (∀ a : ℚ, try_constant_fold (.lst [.str "/", .num a, .num 0]) =
      .lst [.str "/", .num a, .num 0]) ∧
    (∀ a : ℚ, try_constant_fold (.lst [.str "/", .num a]) =
      .lst [.str "/", .num a]) ∧
    try_constant_fold (.lst [.str "%", .num 1, .num 2]) =
      .lst [.str "%", .num 1, .num 2] := by
  refine ⟨fun a => ?_, fun a => ?_, ?_⟩ <;>
    simp [try_constant_fold, allNums, foldArith]

/-! Claim C9. -/

/-- C9: when the head of a compound is bound to an invocable Operation and
applying it to the evaluated operands raises, `evaluate` catches the error
and returns the residual compound — the original head followed by the
evaluated operands — instead of propagating the error. -/
theorem claim_C9 (op : Exp) (args : List Exp) (d : Bindings) (o : OpCode)
    (hl : lookup op d = .op o)
    (ha : applyOp o (evalList args d) = none) :
    evaluate (.lst (op :: args)) d = .lst (op :: evalList args d) := by
  simp [evaluate.eq_def, hl, ha]

/-- C9, witness: `f` bound to the always-raising callable, on `[f, 1]`. -/
theorem claim_C9_witness :
    evaluate (.lst [.str "f", .num 1]) [(.str "f", .op .raiseOp)] =
      .lst (.str "f" :: evalList [.num 1] [(.str "f", .op .raiseOp)]) :=
  claim_C9 (.str "f") [.num 1] [(.str "f", .op .raiseOp)] .raiseOp
    (by simp [lookup, List.find?]) (by simp [applyOp])

/-! Claim C10. -/

/-- C10: an arithmetic evaluation that raises for a reason other than the
guarded division by zero — such as `0 ^ -1`, which raises
ZeroDivisionError inside exponentiation — is caught and the input
expression is returned unchanged; moreover constant folding never raises
and on every failure path returns the expression intact: its result is
always either the unchanged input or a folded numeric constant. -/
theorem claim_C10 :
    (∀ b : ℚ, b.den = 1 → b.num < 0 →
      try_constant_fold (.lst [.str "^", .num 0, .num b]) =
        .lst [.str "^", .num 0, .num b]) ∧
    (∀ e : Exp, try_constant_fold e = e ∨
      ∃ q : ℚ, try_constant_fold e = .num q) := by
  constructor
  · intro b h1 h2
    simp [try_constant_fold, allNums, foldArith, h1, h2]
  · intro e
    cases e with
    | num q => left; rfl
    | str s => left; rfl
    | op o => left; rfl
    | lst l =>
      cases l with
      | nil => left; rfl
      | cons op args =>
        rw [try_constant_fold]
        cases h : allNums args with
        | none => left; rfl
        | some qs =>
          cases hf : foldArith op qs with
          | value q => right; exact ⟨q, by simp [hf]⟩
          | notApplicable => left; simp [hf]
          | raised => left; simp [hf]

/-- C10, witness: the concrete raising input `0 ^ -1` is left intact. -/
theorem claim_C10_witness :
    try_constant_fold (.lst [.str "^", .num 0, .num (-1)]) =
      .lst [.str "^", .num 0, .num (-1)] :=
  claim_C10.1 (-1) (by norm_num) (by norm_num)

/-! Claim C8. -/

/-- C8: with an empty RuleSet and constant folding enabled, the rewriter
folds `["+", 2, 3]` to `5`, and folds `["*", 2, ["+", 1, 2]]` to `6` by
first folding the constant child and then the rebuilt parent.  Recursion
depth 20 is ample for these runs. -/
theorem claim_C8 :
    rewriter [] true 20 (.lst [.str "+", .num 2, .num 3]) = .ok (.num 5) ∧
    rewriter [] true 20 (.lst [.str "*", .num 2,
      .lst [.str "+", .num 1, .num 2]]) = .ok (.num 6) := by
  constructor
  · rw [rewriter, simplify_exp_step _ _ _ _ (by norm_num)]
    norm_num
    rw [simplify_loop_fold_step _ _ _ _ _ (.num 5) (by norm_num)
      (by norm_num) (try_rules_nil _ _ _ _ (by norm_num))
      (by norm_num [try_constant_fold, allNums, foldArith]) (by simp)]
    norm_num
    exact simplify_loop_atom_done _ _ _ _ _ (by norm_num) (by norm_num)
      (try_rules_nil _ _ _ _ (by norm_num)) (by simp [try_constant_fold])
      rfl
  · have hstar : simplify_exp [] true 17 (.str "*") = .ok (.str "*") := by
      rw [simplify_exp_step _ _ _ _ (by norm_num)]
      norm_num
      exact simplify_loop_atom_done _ _ _ _ _ (by norm_num) (by norm_num)
        (try_rules_nil _ _ _ _ (by norm_num)) (by simp [try_constant_fold])
        rfl
    have htwo : simplify_exp [] true 16 (.num 2) = .ok (.num 2) := by
      rw [simplify_exp_step _ _ _ _ (by norm_num)]
      norm_num
      exact simplify_loop_atom_done _ _ _ _ _ (by norm_num) (by norm_num)
        (try_rules_nil _ _ _ _ (by norm_num)) (by simp [try_constant_fold])
        rfl
    have hchild : simplify_exp [] true 15 (.lst [.str "+", .num 1, .num 2]) =
        .ok (.num 3) := by
      rw [simplify_exp_step _ _ _ _ (by norm_num)]
      norm_num
      rw [simplify_loop_fold_step _ _ _ _ _ (.num 3) (by norm_num)
        (by norm_num) (try_rules_nil _ _ _ _ (by norm_num))
        (by norm_num [try_constant_fold, allNums, foldArith]) (by simp)]
      norm_num
      exact simplify_loop_atom_done _ _ _ _ _ (by norm_num) (by norm_num)
        (try_rules_nil _ _ _ _ (by norm_num)) (by simp [try_constant_fold])
        rfl
    have hparts : simplify_parts [] true 18
        [.str "*", .num 2, .lst [.str "+", .num 1, .num 2]] =
        .ok [.str "*", .num 2, .num 3] := by
      refine (simplify_parts_cons _ _ _ _ _ _ _ (by norm_num) ?_ ?_)
      · norm_num; exact hstar
      · refine (simplify_parts_cons _ _ _ _ _ _ _ (by norm_num) ?_ ?_)
        · norm_num; exact htwo
        · refine (simplify_parts_cons _ _ _ _ _ _ _ (by norm_num) ?_ ?_)
          · norm_num; exact hchild
          · exact simplify_parts_nil _ _ _ (by norm_num)
    rw [rewriter, simplify_exp_step _ _ _ _ (by norm_num)]
    norm_num
    rw [simplify_loop_parts_step _ _ _ _ _ [.str "*", .num 2, .num 3]
      (by norm_num) (by norm_num) (try_rules_nil _ _ _ _ (by norm_num))
      (by simp [try_constant_fold, allNums]) (by norm_num; exact hparts)
      (by simp)]
    norm_num
    rw [simplify_loop_fold_step _ _ _ _ _ (.num 6) (by norm_num)
      (by norm_num) (try_rules_nil _ _ _ _ (by norm_num))
      (by norm_num [try_constant_fold, allNums, foldArith]) (by simp)]
    norm_num
    exact simplify_loop_atom_done _ _ _ _ _ (by norm_num) (by norm_num)
      (try_rules_nil _ _ _ _ (by norm_num)) (by simp [try_constant_fold])
      rfl

/-! Claim C3: the cyclic rule set `a+b -> b+a`, `b+a -> a+b`. -/

theorem simplify_exp_fuel0 (rules : Rules) (folding : Bool) (e : Exp) :
    simplify_exp rules folding 0 e = .error .stackOverflow := by
  rw [simplify_exp.eq_def]; simp

theorem simplify_loop_fuel0 (rules : Rules) (folding : Bool) (iters : Nat)
    (e : Exp) : simplify_loop rules folding 0 iters e =
      .error .stackOverflow := by
  rw [simplify_loop.eq_def]; simp

theorem try_rules_fuel0 (scanRules rules : Rules) (folding : Bool)
    (e : Exp) : try_rules scanRules rules folding 0 e =
      .error .stackOverflow := by
  rw [try_rules.eq_def]; simp

theorem cyc_match_ab_ab :
    xmatch (.lst [.str "+", .str "a", .str "b"])
      (.lst [.str "+", .str "a", .str "b"]) (.ok []) = some (.ok []) := by
  simp [xmatch, nullE, atom, constant, variableE, arbitrary_constant,
    arbitrary_variable, arbitrary_expression, callableE]

theorem cyc_match_ba_ba :
    xmatch (.lst [.str "+", .str "b", .str "a"])
      (.lst [.str "+", .str "b", .str "a"]) (.ok []) = some (.ok []) := by
  simp [xmatch, nullE, atom, constant, variableE, arbitrary_constant,
    arbitrary_variable, arbitrary_expression, callableE]

theorem cyc_match_ab_ba :
    xmatch (.lst [.str "+", .str "a", .str "b"])
      (.lst [.str "+", .str "b", .str "a"]) (.ok []) = some .failed := by
  simp [xmatch, nullE, atom, constant, variableE, arbitrary_constant,
    arbitrary_variable, arbitrary_expression, callableE]

theorem cyc_inst_ba :
    instantiate (.lst [.str "+", .str "b", .str "a"]) [] =
      some (.lst [.str "+", .str "b", .str "a"]) := by
  simp [instantiate, instLoop]

theorem cyc_inst_ab :
    instantiate (.lst [.str "+", .str "a", .str "b"]) [] =
      some (.lst [.str "+", .str "a", .str "b"]) := by
  simp [instantiate, instLoop]

/-- The cyclic run exhausts every recursion depth, on both of the two
expressions it alternates between: `try_rules` re-enters `simplify_exp` on
the instantiated skeleton before the iteration cap is consulted, so no
amount of fuel completes the run. -/
theorem cyc_unbounded : ∀ f : Nat,
    simplify_exp
      [(.lst [.str "+", .str "a", .str "b"], .lst [.str "+", .str "b", .str "a"]),
       (.lst [.str "+", .str "b", .str "a"], .lst [.str "+", .str "a", .str "b"])]
      true f (.lst [.str "+", .str "a", .str "b"]) = .error .stackOverflow ∧
    simplify_exp
      [(.lst [.str "+", .str "a", .str "b"], .lst [.str "+", .str "b", .str "a"]),
       (.lst [.str "+", .str "b", .str "a"], .lst [.str "+", .str "a", .str "b"])]
      true f (.lst [.str "+", .str "b", .str "a"]) = .error .stackOverflow := by
  intro f
  induction f using Nat.strong_induction_on with
  | _ f ih =>
    match f with
    | 0 => exact ⟨simplify_exp_fuel0 _ _ _, simplify_exp_fuel0 _ _ _⟩
    | 1 =>
      refine ⟨?_, ?_⟩ <;>
        (rw [simplify_exp_step _ _ _ _ one_ne_zero]; norm_num;
         exact simplify_loop_fuel0 _ _ _ _)
    | 2 =>
      refine ⟨?_, ?_⟩ <;>
        (rw [simplify_exp_step _ _ _ _ two_ne_zero]; norm_num;
         exact simplify_loop_err _ _ _ _ _ _ one_ne_zero (by norm_num)
           (by norm_num; exact try_rules_fuel0 _ _ _ _))
    | (n+3) =>
      constructor
      · rw [simplify_exp_step _ _ _ _ (by omega)]
        refine simplify_loop_err _ _ _ _ _ _ (by omega) (by omega) ?_
        have hm := try_rules_matched
          (.lst [.str "+", .str "a", .str "b"])
          (.lst [.str "+", .str "b", .str "a"])
          [(.lst [.str "+", .str "b", .str "a"],
            .lst [.str "+", .str "a", .str "b"])]
          [(.lst [.str "+", .str "a", .str "b"],
            .lst [.str "+", .str "b", .str "a"]),
           (.lst [.str "+", .str "b", .str "a"],
            .lst [.str "+", .str "a", .str "b"])]
          true (n + 3 - 1 - 1) (.lst [.str "+", .str "a", .str "b"])
          (.lst [.str "+", .str "b", .str "a"]) []
          (by omega) cyc_match_ab_ab cyc_inst_ba
        rw [hm]
        have : n + 3 - 1 - 1 - 1 = n := by omega
        rw [this]
        exact (ih n (by omega)).2
      · rw [simplify_exp_step _ _ _ _ (by omega)]
        refine simplify_loop_err _ _ _ _ _ _ (by omega) (by omega) ?_
        rw [try_rules_failed _ _ _ _ _ _ _ (by omega) cyc_match_ab_ba]
        cases n with
        | zero => norm_num; exact try_rules_fuel0 _ _ _ _
        | succ m =>
          have hm := try_rules_matched
            (.lst [.str "+", .str "b", .str "a"])
            (.lst [.str "+", .str "a", .str "b"])
            []
            [(.lst [.str "+", .str "a", .str "b"],
              .lst [.str "+", .str "b", .str "a"]),
             (.lst [.str "+", .str "b", .str "a"],
              .lst [.str "+", .str "a", .str "b"])]
            true (m + 1 + 3 - 1 - 1 - 1) (.lst [.str "+", .str "b", .str "a"])
            (.lst [.str "+", .str "a", .str "b"]) []
            (by omega) cyc_match_ba_ba cyc_inst_ab
          rw [hm]
          have : m + 1 + 3 - 1 - 1 - 1 - 1 = m := by omega
          rw [this]
          exact (ih m (by omega)).1

/-- C3 (the code defect the claim misses): under the deliberately cyclic
RuleSet `a+b -> b+a`, `b+a -> a+b`, the rewrite of `a+b` does not
terminate within the iteration cap — `try_rules` recursively re-enters
`simplify_exp` on every successful match before the cap is consulted, so
the run aborts with exhausted recursion depth (Python RecursionError) no
matter how much depth is available, instead of returning the last
expression produced. -/
theorem claim_C3 : ∀ fuel : Nat,
    rewriter
      [(.lst [.str "+", .str "a", .str "b"], .lst [.str "+", .str "b", .str "a"]),
       (.lst [.str "+", .str "b", .str "a"], .lst [.str "+", .str "a", .str "b"])]
      true fuel (.lst [.str "+", .str "a", .str "b"]) =
      .error .stackOverflow :=
  fun fuel => (cyc_unbounded fuel).1

/-! Claim C4. -/

/-- C4, counterexample: on the skeleton `[:]` — a substitution-marker
compound with no argument — `eval_exp` takes the head of an empty list and
raises, so `instantiate` is not total. -/
theorem claim_C4_counterexample : instantiate (.lst [.str ":"]) [] = none := by
  simp [instantiate, instLoop]

theorem instLoop_good_aux : ∀ n : Nat,
    (∀ s : Exp, sizeOf s ≤ n → ∀ d : Bindings, goodSkel s = true →
      (instLoop d s).isSome) ∧
    (∀ ts : List Exp, sizeOf ts ≤ n → ∀ d : Bindings,
      goodSkelTail ts = true → ∃ ys, instLoop d (.lst ts) = some (.lst ys)) := by
  intro n
  induction n using Nat.strong_induction_on with
  | _ n ih =>
    constructor
    · intro s hs d hg
      match s with
      | .num q => simp [instLoop]
      | .str t => simp [instLoop]
      | .op o => simp [goodSkel] at hg
      | .lst [] => simp [instLoop]
      | .lst (h :: t) =>
        by_cases hh : h = .str ":"
        · subst hh
          rw [goodSkel] at hg
          simp at hg
          match t, hg with
          | [], hg => simp at hg
          | x :: xs, _ => rw [instLoop.eq_def]; simp
        · rw [goodSkel] at hg
          have hhb : (h == Exp.str ":") = false := by
            simp [beq_iff_eq, hh]
          rw [hhb] at hg
          simp at hg
          have hsz : sizeOf h < n ∧ sizeOf t < n := by
            simp only [Exp.lst.sizeOf_spec, List.cons.sizeOf_spec] at hs
            have h1 : 0 < sizeOf h := by
              cases h <;> simp
            omega
          have p1 := ((ih (sizeOf h) hsz.1).1 h le_rfl d hg.1)
          rcases Option.isSome_iff_exists.mp p1 with ⟨a, ha⟩
          rcases (ih (sizeOf t) hsz.2).2 t le_rfl d hg.2 with ⟨ys, hys⟩
          rw [instLoop.eq_def]
          simp [hhb, ha, hys]
    · intro ts hts d hg
      match ts with
      | [] => exact ⟨[], by simp [instLoop]⟩
      | x :: xs =>
        rw [goodSkelTail] at hg
        simp only [Bool.and_eq_true, Bool.not_eq_true'] at hg
        have hsz : sizeOf x < n ∧ sizeOf xs < n := by
          simp only [List.cons.sizeOf_spec] at hts
          have h1 : 0 < sizeOf x := by
            cases x <;> simp
          omega
        have p1 := ((ih (sizeOf x) hsz.1).1 x le_rfl d hg.1.2)
        rcases Option.isSome_iff_exists.mp p1 with ⟨a, ha⟩
        rcases (ih (sizeOf xs) hsz.2).2 xs le_rfl d hg.2 with ⟨ys, hys⟩
        refine ⟨a :: ys, ?_⟩
        rw [instLoop.eq_def]
        simp [hg.1.1, ha, hys]

/-- C4 (amended): `instantiate(skeleton, bindings)` returns an Expression
for every bindings environment and every well-formed skeleton — one in
which the substitution marker heads only compounds that carry an argument
and never occurs as a bare non-head element, and which contains no
invocable value.  (On other skeletons it can raise, per the
counterexample.) -/
theorem claim_C4 (s : Exp) (d : Bindings) (hg : goodSkel s = true) :
    (instantiate s d).isSome :=
  (instLoop_good_aux (sizeOf s)).1 s le_rfl d hg

/-- C4, witness: the ordinary substitution skeleton `[:, x]` instantiates
without raising. -/
theorem claim_C4_witness : (instantiate (.lst [.str ":", .str "x"]) []).isSome :=
  claim_C4 (.lst [.str ":", .str "x"]) [] (by simp [goodSkel])

/-! Claim C6. -/

/-- C6: extending the bindings inserts `name -> value` when `name` is
unbound; when `name` is already bound the extension succeeds exactly when
the existing value equals the new one and otherwise yields the match
failure sentinel.  Consequently a pattern binding the same any-variable
twice matches an expression with two sub-expressions at those positions
exactly when the two sub-expressions are equal. -/
theorem claim_C6 :
    (∀ (pat dat name : Exp) (d : Bindings),
      variable_name pat = some name →
      d.find? (fun en => en.1 == name) = none →
      extend_dictionary pat dat (.ok d) = some (.ok (d ++ [(name, dat)]))) ∧
    (∀ (pat dat name : Exp) (d : Bindings) (en : Exp × Exp),
      variable_name pat = some name →
      d.find? (fun en => en.1 == name) = some en →
      extend_dictionary pat dat (.ok d) =
        (if en.2 = dat then some (.ok d) else some .failed)) ∧
    (∀ (f : String) (e1 e2 : Exp),
      f ≠ "?" → f ≠ "?c" → f ≠ "?v" →
      callableE e1 = false → callableE e2 = false →
      xmatch
        (.lst [.str f, .lst [.str "?", .str "x"], .lst [.str "?", .str "x"]])
        (.lst [.str f, e1, e2]) (.ok []) =
        (if e1 = e2 then some (.ok [(.str "x", e1)]) else some .failed)) := by
  refine ⟨?_, ?_, ?_⟩
  · intro pat dat name d hv hf
    simp [extend_dictionary, hv, hf]
  · intro pat dat name d en hv hf
    simp [extend_dictionary, hv, hf]
  · intro f e1 e2 hf1 hf2 hf3 hc1 hc2
    have h1 : xmatch (.lst [.str "?", .str "x"]) e1 (.ok []) =
        some (.ok [(.str "x", e1)]) := by
      rw [xmatch.eq_def]
      simp [nullE, atom, constant, variableE, arbitrary_constant,
        arbitrary_variable, arbitrary_expression, extend_dictionary,
        variable_name, hc1]
    have h2 : xmatch (.lst [.str "?", .str "x"]) e2
        (.ok [(.str "x", e1)]) =
        (if e1 = e2 then some (.ok [(.str "x", e1)]) else some .failed) := by
      rw [xmatch.eq_def]
      simp [nullE, atom, constant, variableE, arbitrary_constant,
        arbitrary_variable, arbitrary_expression, extend_dictionary,
        variable_name, hc2, beq_iff_eq]
    by_cases he : e1 = e2
    · subst he
      simp [xmatch, nullE, atom, constant, variableE, arbitrary_constant,
        arbitrary_variable, arbitrary_expression, callableE,
        extend_dictionary, variable_name, hf1, hf2, hf3, h1, h2]
    · simp [xmatch, nullE, atom, constant, variableE, arbitrary_constant,
        arbitrary_variable, arbitrary_expression, callableE,
        extend_dictionary, variable_name, hf1, hf2, hf3, h1, h2, he]

/-- C6, witness: the doubled pattern over head `+` accepts `[+, 3, 3]`. -/
theorem claim_C6_witness :
    xmatch
      (.lst [.str "+", .lst [.str "?", .str "x"], .lst [.str "?", .str "x"]])
      (.lst [.str "+", .num 3, .num 3]) (.ok []) =
      some (.ok [(.str "x", .num 3)]) := by
  have h := claim_C6.2.2 "+" (.num 3) (.num 3) (by simp) (by simp) (by simp)
    rfl rfl
  simpa using h

/-! Claim C5: marker-to-substitution conversion and the round-trip. -/

/-- Matching with the failure sentinel as input propagates it. -/
theorem xmatch_failedD (p e : Exp) : xmatch p e .failed = some .failed := by
  rw [xmatch.eq_def]; simp

/-- The empty-compound pattern branch of the matcher. -/
theorem xmatch_nil (e : Exp) (d : Bindings) :
    xmatch (.lst []) e (.ok d) =
      if nullE e then some (.ok d) else some .failed := by
  rw [xmatch.eq_def]; simp [nullE]

/-- The atom branch of the matcher. -/
theorem xmatch_atom (pat e : Exp) (d : Bindings) (ha : atom pat = true) :
    xmatch pat e (.ok d) =
      if atom e && pat == e then some (.ok d) else some .failed := by
  have hn : nullE pat = false := by
    cases pat <;> simp_all [atom, constant, variableE, nullE]
  rw [xmatch.eq_def]; simp [hn, ha]

/-- The marker branch of the matcher: a compound headed by a marker
symbol, of any length, applies the marker's kind check and extends the
dictionary. -/
theorem xmatch_marker_head (m : String)
    (hm : m = "?" ∨ m = "?c" ∨ m = "?v") (t : List Exp) (e : Exp)
    (d : Bindings) :
    xmatch (.lst (.str m :: t)) e (.ok d) =
      if markerOK m e then
        extend_dictionary (.lst (.str m :: t)) e (.ok d)
      else some .failed := by
  rcases hm with h | h | h <;> subst h <;>
    rw [xmatch.eq_def] <;>
    simp [nullE, atom, constant, variableE, arbitrary_constant,
      arbitrary_variable, arbitrary_expression, markerOK]

/-- The structural branch of the matcher: a compound pattern whose head is
not a marker symbol fails on atoms and callables and otherwise matches
head against head and tail against tail. -/
theorem xmatch_structural (h1 : Exp) (t : List Exp) (e : Exp)
    (d : Bindings) (hnm : isMarkerS h1 = false) :
    xmatch (.lst (h1 :: t)) e (.ok d) =
      match e with
      | .lst [] => some .failed
      | .lst (e1 :: es) =>
        (xmatch h1 e1 (.ok d)).bind fun sub =>
          xmatch (.lst t) (.lst es) sub
      | _ => some .failed := by
  simp [isMarkerS] at hnm
  obtain ⟨⟨hq, hc⟩, hv⟩ := hnm
  cases e with
  | num q =>
    rw [xmatch.eq_def]
    simp [nullE, atom, constant, variableE, arbitrary_constant,
      arbitrary_variable, arbitrary_expression, beq_iff_eq, hq, hc, hv]
  | str s =>
    rw [xmatch.eq_def]
    simp [nullE, atom, constant, variableE, arbitrary_constant,
      arbitrary_variable, arbitrary_expression, beq_iff_eq, hq, hc, hv]
  | op o =>
    rw [xmatch.eq_def]
    simp [nullE, atom, constant, variableE, callableE, arbitrary_constant,
      arbitrary_variable, arbitrary_expression, beq_iff_eq, hq, hc, hv]
  | lst l =>
    cases l with
    | nil =>
      rw [xmatch.eq_def]
      simp [nullE, atom, constant, variableE, callableE,
        arbitrary_constant, arbitrary_variable, arbitrary_expression,
        beq_iff_eq, hq, hc, hv]
    | cons e1 es =>
      rw [xmatch.eq_def]
      simp [nullE, atom, constant, variableE, callableE,
        arbitrary_constant, arbitrary_variable, arbitrary_expression,
        beq_iff_eq, hq, hc, hv]

/-- With pairwise-distinct keys, `lookup` returns the value of any entry
present in the dictionary. -/
theorem lookup_mem (B : Bindings) (n v : Exp) (hu : UniqueKeys B)
    (hm : (n, v) ∈ B) : lookup n B = v := by
  induction B with
  | nil => simp at hm
  | cons kw rest ih =>
    obtain ⟨k, w⟩ := kw
    simp only [UniqueKeys, List.map_cons, List.nodup_cons] at hu
    by_cases hk : k = n
    · rcases List.mem_cons.mp hm with h | h
      · have hv : v = w := by simpa using congrArg Prod.snd h
        subst hv
        simp [lookup, List.find?, hk]
      · exfalso
        rw [hk] at hu
        exact hu.1 (List.mem_map.mpr ⟨(n, v), h, rfl⟩)
    · have hm' : (n, v) ∈ rest := by
        rcases List.mem_cons.mp hm with h | h
        · have hnk : n = k := by simpa using congrArg Prod.fst h
          exact absurd hnk.symm hk
        · exact h
      have hb : (k == n) = false := beq_eq_false_iff_ne.mpr hk
      have hl : lookup n ((k, w) :: rest) = lookup n rest := by
        simp [lookup, List.find?, hb]
      rw [hl]
      exact ih hu.2 hm'

/-- A successful `extend_dictionary` leaves the binding for the marker's
name equal to the bound data, only ever appends entries, and preserves
distinctness of keys. -/
theorem extend_ok (pat dat : Exp) (d d2 : Bindings)
    (h : extend_dictionary pat dat (.ok d) = some (.ok d2)) :
    ∃ name, variable_name pat = some name ∧ (name, dat) ∈ d2 ∧
      (∃ t2, d2 = d ++ t2) ∧ (UniqueKeys d → UniqueKeys d2) := by
  cases hv : variable_name pat with
  | none =>
    rw [show extend_dictionary pat dat (.ok d) = none by
      simp [extend_dictionary, hv]] at h
    simp at h
  | some name =>
    have hbody : extend_dictionary pat dat (.ok d) =
        match d.find? (fun en => en.1 == name) with
        | some en =>
          if en.2 == dat then some (.ok d) else some .failed
        | none => some (.ok (d ++ [(name, dat)])) := by
      simp [extend_dictionary, hv]
    rw [hbody] at h
    refine ⟨name, rfl, ?_⟩
    cases hf : d.find? (fun en => en.1 == name) with
    | some en =>
      rw [hf] at h
      replace h : (if (en.2 == dat) = true then some (MRes.ok d)
          else some MRes.failed) = some (MRes.ok d2) := h
      by_cases hed : (en.2 == dat) = true
      · rw [if_pos hed] at h
        obtain rfl : d = d2 := by simpa using h
        have hmem : en ∈ d := List.mem_of_find?_eq_some hf
        have h1 : en.1 = name := by
          have := List.find?_some hf
          simpa [beq_iff_eq] using this
        have h2 : en.2 = dat := beq_iff_eq.mp hed
        have hen : (name, dat) = en := by
          obtain ⟨a, b⟩ := en
          simp at h1 h2
          simp [h1, h2]
        exact ⟨hen ▸ hmem, ⟨[], by simp⟩, fun hu => hu⟩
      · rw [if_neg hed] at h
        exact absurd h (by simp)
    | none =>
      rw [hf] at h
      obtain rfl : d2 = d ++ [(name, dat)] := by
        have := h
        simp at this
        exact this.symm
      have hnot : name ∉ d.map Prod.fst := by
        intro hmem
        rcases List.mem_map.mp hmem with ⟨en, hen, he1⟩
        exact (List.find?_eq_none.mp hf en hen) (by simp [he1])
      refine ⟨by simp, ⟨[(name, dat)], rfl⟩, ?_⟩
      intro hu
      simp only [UniqueKeys, List.map_append, List.map_cons, List.map_nil]
      rw [List.nodup_append]
      exact ⟨hu, List.nodup_singleton _,
        fun a ha hb => by simp at hb; subst hb; exact hnot ha⟩

/-- A successful match only appends entries to the bindings and preserves
distinctness of keys. -/
theorem xmatch_extends : ∀ n : Nat, ∀ pat e : Exp, sizeOf pat ≤ n →
    ∀ d d2 : Bindings, xmatch pat e (.ok d) = some (.ok d2) →
    (∃ t2, d2 = d ++ t2) ∧ (UniqueKeys d → UniqueKeys d2) := by
  intro n
  induction n using Nat.strong_induction_on with
  | _ n ih =>
    intro pat e hs d d2 h
    match pat with
    | .num q =>
      rw [xmatch_atom _ _ _ (by simp [atom, constant])] at h
      by_cases hc : (atom e && (Exp.num q == e)) = true
      · rw [if_pos hc] at h
        obtain rfl : d = d2 := by simpa using h
        exact ⟨⟨[], by simp⟩, fun hu => hu⟩
      · rw [if_neg hc] at h
        exact absurd h (by simp)
    | .str s =>
      rw [xmatch_atom _ _ _ (by simp [atom, variableE])] at h
      by_cases hc : (atom e && (Exp.str s == e)) = true
      · rw [if_pos hc] at h
        obtain rfl : d = d2 := by simpa using h
        exact ⟨⟨[], by simp⟩, fun hu => hu⟩
      · rw [if_neg hc] at h
        exact absurd h (by simp)
    | .op o =>
      rw [xmatch.eq_def] at h
      cases e <;>
        simp [nullE, atom, constant, variableE, callableE,
          arbitrary_constant, arbitrary_variable,
          arbitrary_expression] at h
    | .lst [] =>
      rw [xmatch_nil] at h
      by_cases hn : nullE e = true
      · rw [if_pos hn] at h
        obtain rfl : d = d2 := by simpa using h
        exact ⟨⟨[], by simp⟩, fun hu => hu⟩
      · rw [if_neg hn] at h
        exact absurd h (by simp)
    | .lst (h1 :: t) =>
      by_cases hmk : isMarkerS h1 = true
      · have hex : ∃ m, (m = "?" ∨ m = "?c" ∨ m = "?v") ∧ h1 = .str m := by
          simp [isMarkerS, beq_iff_eq] at hmk
          rcases hmk with (hh | hh) | hh
          · exact ⟨"?", Or.inl rfl, hh⟩
          · exact ⟨"?c", Or.inr (Or.inl rfl), hh⟩
          · exact ⟨"?v", Or.inr (Or.inr rfl), hh⟩
        obtain ⟨m, hm3, rfl⟩ := hex
        rw [xmatch_marker_head m hm3] at h
        by_cases hk : markerOK m e = true
        · rw [if_pos hk] at h
          obtain ⟨name, _, _, hext, hu⟩ := extend_ok _ _ _ _ h
          exact ⟨hext, hu⟩
        · rw [if_neg hk] at h
          exact absurd h (by simp)
      · have hmf : isMarkerS h1 = false := by simpa using hmk
        rw [xmatch_structural _ _ _ _ hmf] at h
        cases e with
        | num q => simp at h
        | str s => simp at h
        | op o => simp at h
        | lst l =>
          cases l with
          | nil => simp at h
          | cons e1 es =>
            replace h : (xmatch h1 e1 (.ok d)).bind
                (fun sub => xmatch (.lst t) (.lst es) sub) =
                some (.ok d2) := h
            cases hsub : xmatch h1 e1 (.ok d) with
            | none => rw [hsub] at h; simp at h
            | some sub =>
              rw [hsub] at h
              simp only [Option.some_bind] at h
              cases sub with
              | failed => rw [xmatch_failedD] at h; simp at h
              | ok d1 =>
                have hpos : 0 < sizeOf h1 := by cases h1 <;> simp
                have hsz : sizeOf h1 < n ∧ sizeOf (Exp.lst t) < n := by
                  simp only [Exp.lst.sizeOf_spec, List.cons.sizeOf_spec]
                    at hs ⊢
                  omega
                obtain ⟨⟨t1, rfl⟩, hu1⟩ :=
                  ih (sizeOf h1) hsz.1 h1 e1 le_rfl d d1 hsub
                obtain ⟨⟨t2, rfl⟩, hu2⟩ :=
                  ih (sizeOf (Exp.lst t)) hsz.2 (.lst t) (.lst es) le_rfl
                    _ d2 h
                exact ⟨⟨t1 ++ t2, by simp⟩, fun hu => hu2 (hu1 hu)⟩

/-- A true `isMarkerS` exhibits one of the three marker strings. -/
theorem isMarkerS_cases (h1 : Exp) (hmk : isMarkerS h1 = true) :
    ∃ m, (m = "?" ∨ m = "?c" ∨ m = "?v") ∧ h1 = .str m := by
  simp [isMarkerS, beq_iff_eq] at hmk
  rcases hmk with (hh | hh) | hh
  · exact ⟨"?", Or.inl rfl, hh⟩
  · exact ⟨"?c", Or.inr (Or.inl rfl), hh⟩
  · exact ⟨"?v", Or.inr (Or.inr rfl), hh⟩

/-- `null` recognizes exactly the empty compound. -/
theorem nullE_eq (e : Exp) : nullE e = true ↔ e = .lst [] := by
  cases e with
  | lst l => cases l <;> simp [nullE]
  | num q => simp [nullE]
  | str s => simp [nullE]
  | op o => simp [nullE]

/-- Evaluating a bare symbol is a lookup. -/
theorem evaluate_str (s : String) (d : Bindings) :
    evaluate (.str s) d = lookup (.str s) d := by
  simp [evaluate.eq_def]

/-- A well-formed tail is a well-formed pattern when re-read as a compound
(this is how the matcher walks a compound, suffix by suffix). -/
theorem goodTailP_goodPat (t : List Exp) (hg : goodTailP t = true) :
    goodPat (.lst t) = true := by
  cases t with
  | nil => simp [goodPat]
  | cons x xs =>
    rw [goodTailP] at hg
    simp only [Bool.and_eq_true, Bool.not_eq_true'] at hg
    rw [goodPat, if_neg, if_neg]
    · exact by simp [hg.1.2, hg.2]
    · simp [hg.1.1.2]
    · simp [hg.1.1.1]

/-- On a well-formed tail the conversion is elementwise. -/
theorem toSkel_tail (t : List Exp) (hg : goodTailP t = true) :
    toSkel (.lst t) = .lst (toSkelL t) := by
  cases t with
  | nil => simp [toSkel, toSkelL]
  | cons x xs =>
    rw [goodTailP] at hg
    simp only [Bool.and_eq_true, Bool.not_eq_true'] at hg
    rw [toSkel, toSkelL, if_neg]
    simp [hg.1.1.1]

/-- The conversion of a well-formed non-colon pattern is never the bare
substitution marker. -/
theorem toSkel_ne_colon (p : Exp) (hg : goodPat p = true)
    (hc : (p == Exp.str ":") = false) :
    (toSkel p == Exp.str ":") = false := by
  cases p with
  | num q => simp [toSkel]
  | str s => simpa [toSkel] using hc
  | op o => simp [goodPat] at hg
  | lst l =>
    cases l with
    | nil => simp [toSkel]
    | cons h t =>
      rw [toSkel]
      split <;> simp

/-- The round-trip core: a successful match of a well-formed pattern can
be undone by instantiating the converted pattern under any
unique-key extension of the produced bindings. -/
theorem roundtrip_aux : ∀ n : Nat, ∀ pat e : Exp, sizeOf pat ≤ n →
    ∀ d d2 : Bindings, goodPat pat = true →
    xmatch pat e (.ok d) = some (.ok d2) →
    ∀ B : Bindings, (∃ tl, B = d2 ++ tl) → UniqueKeys B →
    instLoop B (toSkel pat) = some e := by
  intro n
  induction n using Nat.strong_induction_on with
  | _ n ih =>
    intro pat e hs d d2 hg h B hB hu
    match pat with
    | .num q =>
      rw [xmatch_atom _ _ _ (by simp [atom, constant])] at h
      by_cases hc : (atom e && (Exp.num q == e)) = true
      · simp only [Bool.and_eq_true, beq_iff_eq] at hc
        rw [← hc.2]
        simp [toSkel, instLoop]
      · rw [if_neg hc] at h
        exact absurd h (by simp)
    | .str s =>
      rw [xmatch_atom _ _ _ (by simp [atom, variableE])] at h
      by_cases hc : (atom e && (Exp.str s == e)) = true
      · simp only [Bool.and_eq_true, beq_iff_eq] at hc
        rw [← hc.2]
        simp [toSkel, instLoop]
      · rw [if_neg hc] at h
        exact absurd h (by simp)
    | .op o => simp [goodPat] at hg
    | .lst [] =>
      rw [xmatch_nil] at h
      by_cases hn : nullE e = true
      · rw [(nullE_eq e).mp hn]
        simp [toSkel, instLoop]
      · rw [if_neg hn] at h
        exact absurd h (by simp)
    | .lst (h1 :: t) =>
      by_cases hmk : isMarkerS h1 = true
      · rw [goodPat, if_pos hmk] at hg
        obtain ⟨name, rest, rfl⟩ : ∃ name rest, t = .str name :: rest := by
          match t, hg with
          | .str nm :: rs, _ => exact ⟨nm, rs, rfl⟩
          | [], hg => simp [nameHead] at hg
          | .num _ :: _, hg => simp [nameHead] at hg
          | .lst _ :: _, hg => simp [nameHead] at hg
          | .op _ :: _, hg => simp [nameHead] at hg
        obtain ⟨m, hm3, rfl⟩ := isMarkerS_cases h1 hmk
        rw [xmatch_marker_head m hm3] at h
        by_cases hk : markerOK m e = true
        · rw [if_pos hk] at h
          obtain ⟨nm2, hv, hmem, _, _⟩ := extend_ok _ _ _ _ h
          have hnm : nm2 = .str name := by
            have hx := hv
            simp [variable_name] at hx
            exact hx.symm
          subst hnm
          obtain ⟨tl, rfl⟩ := hB
          have hlook : lookup (.str name) (d2 ++ tl) = e :=
            lookup_mem _ _ _ hu (List.mem_append_left _ hmem)
          rw [show toSkel (.lst (.str m :: .str name :: rest)) =
              .lst (.str ":" :: .str name :: rest) by
            rw [toSkel, if_pos hmk]]
          rw [instLoop.eq_def]
          simp [evaluate_str, hlook]
        · rw [if_neg hk] at h
          exact absurd h (by simp)
      · have hmf : isMarkerS h1 = false := by simpa using hmk
        by_cases hcl : (h1 == Exp.str ":") = true
        · rw [goodPat, if_neg hmk, if_pos hcl] at hg
          simp at hg
        · rw [goodPat, if_neg hmk, if_neg hcl] at hg
          simp only [Bool.and_eq_true] at hg
          rw [xmatch_structural _ _ _ _ hmf] at h
          cases e with
          | num q => simp at h
          | str s => simp at h
          | op o => simp at h
          | lst l =>
            cases l with
            | nil => simp at h
            | cons e1 es =>
              replace h : (xmatch h1 e1 (.ok d)).bind
                  (fun sub => xmatch (.lst t) (.lst es) sub) =
                  some (.ok d2) := h
              cases hsub : xmatch h1 e1 (.ok d) with
              | none => rw [hsub] at h; simp at h
              | some sub =>
                rw [hsub] at h
                simp only [Option.some_bind] at h
                cases sub with
                | failed => rw [xmatch_failedD] at h; simp at h
                | ok d1 =>
                  have hpos : 0 < sizeOf h1 := by cases h1 <;> simp
                  have hsz : sizeOf h1 < n ∧ sizeOf (Exp.lst t) < n := by
                    simp only [Exp.lst.sizeOf_spec, List.cons.sizeOf_spec]
                      at hs ⊢
                    omega
                  obtain ⟨⟨t2, rfl⟩, _⟩ :=
                    xmatch_extends (sizeOf (Exp.lst t)) (.lst t) (.lst es)
                      le_rfl d1 d2 h
                  obtain ⟨tl, hBeq⟩ := hB
                  have ih1 := ih (sizeOf h1) hsz.1 h1 e1 le_rfl d d1 hg.1
                    hsub B ⟨t2 ++ tl, by rw [hBeq]; simp⟩ hu
                  have ih2 := ih (sizeOf (Exp.lst t)) hsz.2 (.lst t)
                    (.lst es) le_rfl d1 (d1 ++ t2)
                    (goodTailP_goodPat t hg.2) h B ⟨tl, hBeq⟩ hu
                  rw [toSkel_tail t hg.2] at ih2
                  have hcol : (toSkel h1 == Exp.str ":") = false :=
                    toSkel_ne_colon h1 hg.1 (by simpa using hcl)
                  rw [show toSkel (.lst (h1 :: t)) =
                      .lst (toSkel h1 :: toSkelL t) by
                    rw [toSkel, if_neg (by simp [hmf])]]
                  rw [instLoop.eq_def]
                  simp [hcol, ih1, ih2]

/-- C5, counterexample.  Two failing instances of the round-trip as
claimed.  First, `P = ["?", "x", "junk"]` contains no marker in the
spec's exactly-two-element sense, so the claim's conversion leaves `P`
unchanged; yet `match(P, 7, {})` succeeds (the code recognizes the marker
by its head alone) with bindings `x -> 7`, and instantiating the
converted skeleton — `P` itself — returns `P`, not the matched
expression `7`.  Second, `P = E = [":", "x"]`: the compound is not a
marker, so it matches itself structurally with empty bindings, both
conversions leave it unchanged, and instantiating it evaluates the
substitution form to `"x"`, not `E` — which is why the amended claim must
also exclude patterns in which the bare substitution marker heads a
compound. -/
theorem claim_C5_counterexample :
    (xmatch (.lst [.str "?", .str "x", .str "junk"]) (.num 7) (.ok []) =
      some (.ok [(.str "x", .num 7)]) ∧
    specToSkel (.lst [.str "?", .str "x", .str "junk"]) =
      .lst [.str "?", .str "x", .str "junk"] ∧
    instantiate (.lst [.str "?", .str "x", .str "junk"])
      [(.str "x", .num 7)] = some (.lst [.str "?", .str "x", .str "junk"]) ∧
    Exp.lst [.str "?", .str "x", .str "junk"] ≠ .num 7) ∧
    (xmatch (.lst [.str ":", .str "x"]) (.lst [.str ":", .str "x"])
      (.ok []) = some (.ok []) ∧
    specToSkel (.lst [.str ":", .str "x"]) = .lst [.str ":", .str "x"] ∧
    toSkel (.lst [.str ":", .str "x"]) = .lst [.str ":", .str "x"] ∧
    instantiate (.lst [.str ":", .str "x"]) [] = some (.str "x") ∧
    Exp.str "x" ≠ .lst [.str ":", .str "x"]) := by
  refine ⟨⟨?_, ?_, ?_, by simp⟩, ⟨?_, ?_, ?_, ?_, by simp⟩⟩
  · simp [xmatch, nullE, atom, constant, variableE, arbitrary_constant,
      arbitrary_variable, arbitrary_expression, callableE,
      extend_dictionary, variable_name]
  · simp [specToSkel, specToSkelL]
  · simp [instantiate, instLoop]
  · simp [xmatch, nullE, atom, constant, variableE, arbitrary_constant,
      arbitrary_variable, arbitrary_expression, callableE,
      extend_dictionary, variable_name]
  · simp [specToSkel, specToSkelL, isMarkerS]
  · simp [toSkel, toSkelL, isMarkerS]
  · simp [instantiate, instLoop, evaluate_str, lookup, List.find?]

/-- C5 (amended): the round-trip holds with the code's head-based marker
reading, for well-formed patterns.  If `P` is a pattern in which every
marker compound (any compound headed by a marker symbol) carries a Symbol
name as its second element, in which the bare substitution marker never
heads a non-marker compound (the `[":", "x"]` counterexample shows this
exclusion is necessary: such a compound matches structurally but
instantiates as a substitution form), in which marker symbols and the
substitution marker never occur as bare non-head elements of a compound,
and which contains no invocable value, and `match(P, E, {})` yields
bindings `B`, then instantiating `P` with every marker-headed compound's
head rewritten to the substitution marker, under `B`, returns `E`. -/
theorem claim_C5 (P E : Exp) (B : Bindings) (hg : goodPat P = true)
    (hm : xmatch P E (.ok []) = some (.ok B)) :
    instantiate (toSkel P) B = some E := by
  have hu : UniqueKeys B :=
    (xmatch_extends (sizeOf P) P E le_rfl [] B hm).2
      (by simp [UniqueKeys])
  exact roundtrip_aux (sizeOf P) P E le_rfl [] B hg hm B ⟨[], by simp⟩ hu

/-- C5, witness: the pattern `["+", any(x), 0]` matched against
`["+", a, 0]` and instantiated back. -/
theorem claim_C5_witness :
    instantiate (toSkel (.lst [.str "+", .lst [.str "?", .str "x"], .num 0]))
      [(.str "x", .str "a")] = some (.lst [.str "+", .str "a", .num 0]) :=
  claim_C5 (.lst [.str "+", .lst [.str "?", .str "x"], .num 0])
    (.lst [.str "+", .str "a", .num 0]) [(.str "x", .str "a")]
    (by simp [goodPat, goodTailP, isMarkerS, nameHead])
    (by simp [xmatch, nullE, atom, constant, variableE,
      arbitrary_constant, arbitrary_variable, arbitrary_expression,
      callableE, extend_dictionary, variable_name])

end Xtk
